import Mathlib

/-!
# Verification of the microbundle build-plan synthesizer

Shallow embedding of the build-plan synthesis code (`microbundle`,
`createConfig`, `doWatch` from the main module, and `getExternals` /
`generateBundle` from the bundle module) together with proofs about the
synthesized plans.  JavaScript strings are modelled as Lean `String`
(`.data` gives the character list), JavaScript objects as structures,
`undefined` as `Option.none`, and the Node `path` functions as explicit
string operations on POSIX-style paths without `.`/`..` segments.
-/

namespace Microbundle

/-- Model of JavaScript `s.split(',')`: splits a character list at every
comma; the empty string yields `[""]`, as in JavaScript. -/
def splitComma : List Char → List String
  | [] => [""]
  | c :: cs =>
    match splitComma cs, c == ',' with
    | r, true => "" :: r
    | [], false => [String.mk [c]]
    | s :: rest, false => String.mk (c :: s.data) :: rest

/-- Model of JavaScript string truthiness for an optional string option:
`undefined` and the empty string are falsy. -/
def isTruthyStr : Option String → Bool
  | none => false
  | some s => s ≠ ""

/-- A POSIX path is absolute when it starts with a slash. -/
def isAbs (s : String) : Bool := s.data.head? == some '/'

/-- Model of Node `path.resolve(base, p)` for the paths appearing in this
program (no `.`/`..` segments, no trailing slashes): an absolute second
argument wins, otherwise it is joined onto the base. -/
def resolveP (base p : String) : String :=
  if isAbs p then p else base ++ "/" ++ p

/-- Model of Node `path.dirname` for paths without trailing slashes. -/
def dirnameP (s : String) : String :=
  let tl := s.data.reverse.dropWhile (· ≠ '/')
  match tl with
  | [] => "."
  | _ :: rest => if rest.isEmpty then "/" else String.mk rest.reverse

/-- Model of Node `path.basename` for paths without trailing slashes. -/
def basenameP (s : String) : String :=
  String.mk (s.data.reverse.takeWhile (· ≠ '/')).reverse

/-- Model of `filename.replace(/^[^.]+/, '')`: removes the leading run of
non-dot characters (the name part before the first extension dot). -/
def dropLeadingNonDot (s : String) : String :=
  String.mk (s.data.dropWhile (· ≠ '.'))

/-- The suffixes matched by the regex `(\.(umd|cjs|es|m))?\.(mjs|[tj]sx?)$`
used to strip a known format suffix plus extension from the main path. -/
def fmtExtCombos : List String :=
  ["", ".umd", ".cjs", ".es", ".m"].flatMap fun opt =>
    [".mjs", ".ts", ".tsx", ".js", ".jsx"].map fun ext => opt ++ ext

/-- Model of `s.replace(/(\.(umd|cjs|es|m))?\.(mjs|[tj]sx?)$/, '')`.
Since every match is anchored at the end of the string, the leftmost
match is the longest matching suffix; it is removed. -/
def stripFmtExt (s : String) : String :=
  let best := fmtExtCombos.foldl
    (fun acc c =>
      if c.data.isSuffixOf s.data && acc < c.data.length then c.data.length
      else acc) 0
  String.mk (s.data.take (s.data.length - best))

/-- Model of `entry.match(/([\\\x2f])index(\.(umd|cjs|es|m))?\.(mjs|[tj]sx?)$/)`:
the entry's filename is `index` with an optional format suffix and a
known extension, preceded by a path separator. -/
def isIndexEntry (e : String) : Bool :=
  fmtExtCombos.any fun suf =>
    suf ≠ "" &&
      (("/index" ++ suf).data.isSuffixOf e.data ||
        ("\\index" ++ suf).data.isSuffixOf e.data)

/-- Matching of one regex pattern character against one input character:
the external entries are injected into the regex unescaped, so a `.` in
an entry is the regex wildcard and matches any character; every other
character matches only itself. -/
def chMatch (p c : Char) : Bool := p == '.' || p == c

/-- Matches the pattern `p` (one unescaped alternative, `.` wildcard)
against a prefix of `l`, returning the unmatched rest on success.  Each
pattern character consumes exactly one input character, so matching is
deterministic and needs no backtracking. -/
def wildPrefixMatch : List Char → List Char → Option (List Char)
  | [], rest => some rest
  | _ :: _, [] => none
  | p :: ps, c :: cs => if chMatch p c then wildPrefixMatch ps cs else none

/-- The regex metacharacters other than `.`.  An alternative containing
none of them (and no `.`) is matched literally by the regex; an
alternative containing `.` but none of these is matched by
`wildPrefixMatch` exactly as the regex matches it.  Alternatives
containing one of these characters change the regex's shape itself and
are outside this model's domain. -/
def regexMetas : List Char :=
  ['\\', '^', '$', '*', '+', '?', '(', ')', '[', ']', '\x7b', '\x7d', '|']

/-- An alternative on which `wildPrefixMatch` agrees with the program's
regex: it may contain `.` (wildcard) but no other metacharacter. -/
def regexTame (s : String) : Bool :=
  s.data.all fun c => !(c ∈ regexMetas)

/-- An alternative the regex matches literally: no metacharacter at all,
not even `.`. -/
def regexSafe (s : String) : Bool :=
  s.data.all fun c => !(c ∈ ('.' :: regexMetas))

/-- One alternative of the external regex `^(e₁|…|eₙ)($|\x2f)`: the
alternative `e` (with `.` acting as the regex wildcard, since entries
are injected unescaped) must match a prefix of `id` and be followed by
the end of the string or by a slash. -/
def altMatch (e id : String) : Bool :=
  match wildPrefixMatch e.data id.data with
  | none => false
  | some rest => rest.isEmpty || rest.head? == some '/'

/-- Model of `externalTest` from `createConfig`: the regex
`^(${external.join('|')})($|\x2f)` tested against `id`, with the code's
guard that an empty external list classifies nothing as external. -/
def xternalTest (xs : List String) (id : String) : Bool :=
  if xs.isEmpty then false else xs.any (fun e => altMatch e id)

/-- The `minify`/`mangle` package field: either a string (a cache-file
path) or an object (possibly-empty minify options). -/
inductive MinifyRaw where
  | str (path : String)
  | obj
deriving DecidableEq

/-- ManifestInfo: the package.json fields consumed by config synthesis.
Dependency maps are modelled by their key lists. -/
structure Pkg where
  name : String := ""
  dependencies : List String := []
  peerDependencies : List String := []
  moduleField : Option String := none
  jsnextMain : Option String := none
  esmodulesField : Option String := none
  esmodule : Option String := none
  cjsMainField : Option String := none
  umdMainField : Option String := none
  minifyRaw : MinifyRaw := .obj
deriving DecidableEq

/-- BuildOptions as seen by `createConfig`: resolved working directory,
resolved entries, resolved output path, and the CLI-level options. -/
structure Options where
  cwd : String := "/w"
  pkg : Pkg := {}
  name : String := ""
  entries : List String := []
  output : String := ""
  multipleEntries : Bool := false
  xternalOpt : Option String := none
  formatStr : String := ""
  compress : Bool := true
deriving DecidableEq

/-- The external array computed by `createConfig`: built-ins plus the
other entries, then (unless the `'none'` sentinel is set) the
peerDependencies plus either the explicit comma-separated override or
the dependencies.  Note the `'none'` branch of the source is empty, so
the built-ins and sibling entries remain in the array. -/
def computeXternal (o : Options) (entry : String) : List String :=
  let base := ["dns", "fs", "path", "url"] ++ o.entries.filter (fun e => e ≠ entry)
  if o.xternalOpt == some "none" then
    base
  else if isTruthyStr o.xternalOpt then
    base ++ o.pkg.peerDependencies ++ splitComma (o.xternalOpt.getD "").data
  else
    base ++ o.pkg.peerDependencies ++ o.pkg.dependencies

/-- Model of `getExternals` from the bundle module: the `'none'` sentinel
yields the empty array there. -/
def getXternals (x : Option String) (dependencies peerDependencies : List String) :
    List String :=
  if x == some "none" then []
  else if isTruthyStr x then
    ["dns", "fs", "path", "url"] ++ peerDependencies ++ splitComma ((x.getD "").data)
  else
    ["dns", "fs", "path", "url"] ++ peerDependencies ++ dependencies

/-- The `external` callback of `inputOptions`: the async-to-promises
helper module is always bundled, `.` is external in multi-entry plans,
and everything else is decided by `externalTest`. -/
def inputXternalPred (o : Options) (entry id : String) : Bool :=
  if id = "babel-plugin-transform-async-to-promises/helpers" then false
  else if o.multipleEntries && id == "." then true
  else xternalTest (computeXternal o entry) id

/-- Whether `pat` occurs as a contiguous segment of `l`; models
JavaScript `string.match(/pat/)` for a literal pattern. -/
def containsSeg (pat : List Char) : List Char → Bool
  | [] => pat.isEmpty
  | c :: cs => pat.isPrefixOf (c :: cs) || containsSeg pat cs

/-- JavaScript `a || d` for an optional string `a` (empty string is falsy). -/
def jsOr (a : Option String) (d : String) : String :=
  match a with
  | some s => if s = "" then d else s
  | none => d

/-- The `mainNoExtension` computation of `createConfig`: in multi-entry
plans a non-index entry contributes its own basename, then any known
format suffix plus extension is stripped. -/
def mainNoExtensionOf (o : Options) (entry : String) : String :=
  let m0 := o.output
  let m1 :=
    if o.multipleEntries then
      let nm := if isIndexEntry entry then m0 else entry
      resolveP (dirnameP m0) (basenameP nm)
    else m0
  stripFmtExt m1

/-- `replaceName(filename, name)` from `createConfig`: keeps `filename`'s
extension chain and substitutes `nm` for its name part. -/
def replaceName (filename nm : String) : String :=
  resolveP (dirnameP filename) (nm ++ dropLeadingNonDot (basenameP filename))

/-- `moduleMain`: manifest `module` field if present and not under `src/`,
else `jsnext:main`, else the default `x.esm.js` shape. -/
def moduleMainOf (o : Options) (n : String) : String :=
  let choice :=
    match o.pkg.moduleField with
    | some m =>
      if m ≠ "" && !containsSeg ("src/").data m.data then m
      else jsOr o.pkg.jsnextMain "x.esm.js"
    | none => jsOr o.pkg.jsnextMain "x.esm.js"
  replaceName choice n

/-- `modernMain`: `syntax.esmodules`, else `esmodule`, else `x.modern.js`. -/
def modernMainOf (o : Options) (n : String) : String :=
  replaceName (jsOr o.pkg.esmodulesField (jsOr o.pkg.esmodule "x.modern.js")) n

/-- `cjsMain`: the `cjs:main` manifest field or the default `x.js` shape. -/
def cjsMainOf (o : Options) (n : String) : String :=
  replaceName (jsOr o.pkg.cjsMainField "x.js") n

/-- `umdMain`: the `umd:main` manifest field or the default `x.umd.js` shape. -/
def umdMainOf (o : Options) (n : String) : String :=
  replaceName (jsOr o.pkg.umdMainField "x.umd.js") n

/-- `outputOptions.file`: the per-format main path resolved against the
working directory; any format other than `modern`/`es`/`umd` (including
`esm` and `cjs`) falls back to `cjsMain`. -/
def outFileOf (o : Options) (entry format : String) : String :=
  let n := mainNoExtensionOf o entry
  resolveP o.cwd
    (if format = "modern" then modernMainOf o n
     else if format = "es" then moduleMainOf o n
     else if format = "umd" then umdMainOf o n
     else cjsMainOf o n)

/-- The default per-format output suffix used when the manifest declares
no per-format main override (`x.modern.js` / `x.esm.js` / `x.umd.js` /
`x.js` with the `x` name part replaced). -/
def defaultSfx (f : String) : String :=
  if f = "modern" then ".modern.js"
  else if f = "es" then ".esm.js"
  else if f = "umd" then ".umd.js"
  else ".js"

/-- The on-disk mangle cache: a mapping from original to minified names. -/
abbrev NameCache := List (String × String)

/-- `getNameCachePath`: the explicit string-valued `minify`/`mangle`
manifest field, or the default `mangle.json`, resolved against cwd. -/
def nameCachePathOf (o : Options) : String :=
  match o.pkg.minifyRaw with
  | .str s => resolveP o.cwd s
  | .obj => resolveP o.cwd "mangle.json"

/-- The net effect of `loadNameCache` followed by the
`if (nameCache === bareNameCache) nameCache = null` re-binding: a file
that reads and parses gives its contents; a missing or unparsable file
leaves the initial object in place (the `try`/`catch` swallows the
error), which is then replaced by `null`.  `fsR` models
`JSON.parse(fs.readFileSync(path))`, `none` meaning read or parse threw. -/
def nameCacheAfterLoad (o : Options) (fsR : String → Option NameCache) :
    Option NameCache :=
  match fsR (nameCachePathOf o) with
  | some c => some c
  | none => none

/-- The comparator passed to `formats.sort`:
`(a, b) => (a === 'cjs' ? -1 : a > b ? 1 : 0)`. -/
def fmtCmp (a b : String) : Int :=
  if a == "cjs" then -1 else if b < a then 1 else 0

/-- Stable insertion of one element: `x` is placed before the first
element it compares strictly less than. -/
def insertCmp (x : String) : List String → List String
  | [] => [x]
  | y :: ys => if fmtCmp x y < 0 then x :: y :: ys else y :: insertCmp x ys

/-- Model of `Array.prototype.sort` (stable since ES2019) with `fmtCmp`:
a stable insertion sort consistent with the comparator. -/
def jsSort (l : List String) : List String :=
  l.foldl (fun acc x => insertCmp x acc) []

/-- The format list of one invocation: `format.split(',')` then the
cjs-first sort. -/
def sortedFormats (o : Options) : List String :=
  jsSort (splitComma o.formatStr.data)

/-- The parts of one `createConfig` result that the verified claims are
about. -/
structure Config where
  entry : String
  format : String
  writeMeta : Bool
  cacheDisabled : Bool
  xternal : List String
  outFile : String
  outFormat : String
  outName : String
  nameCacheLoaded : Option NameCache
  cacheWritePluginPresent : Bool
deriving DecidableEq

/-- `createConfig(options, entry, format, writeMeta)`.  `cacheDisabled`
is `inputOptions.cache === false` (set for the modern format only);
`cacheWritePluginPresent` records whether the terser name-cache
write-back plugin survives `.filter(Boolean)` (compression on and a
successfully loaded cache). -/
def createConfig (o : Options) (entry format : String) (writeMeta : Bool)
    (fsR : String → Option NameCache) : Config :=
  let modern := format == "modern"
  let nc := nameCacheAfterLoad o fsR
  { entry := entry
    format := format
    writeMeta := writeMeta
    cacheDisabled := modern
    xternal := computeXternal o entry
    outFile := outFileOf o entry format
    outFormat := if modern then "es" else format
    outName := o.name
    nameCacheLoaded := nc
    cacheWritePluginPresent := o.compress && nc.isSome }

/-- Whether this step writes the mangle-cache file on `writeBundle`: the
plugin must be present and the hook checks `writeMeta && nameCache`. -/
def Config.writesCache (c : Config) : Bool :=
  c.cacheWritePluginPresent && c.writeMeta && c.nameCacheLoaded.isSome

/-- The options as the plan synthesis loop sees them:
`options.multipleEntries = options.entries.length > 1`. -/
def planOptions (o : Options) : Options :=
  { o with multipleEntries := decide (o.entries.length > 1) }

/-- The plan synthesis loop of `microbundle`: `multipleEntries` is set
from the entry count, the formats are split and sorted cjs-first, and
one config is created per (entry, format) pair, the `(0, 0)` pair being
the `writeMeta` step. -/
def buildPlan (o : Options) (fsR : String → Option NameCache) : List Config :=
  let oo := planOptions o
  (oo.entries.enum.map fun ie =>
    (sortedFormats oo).enum.map fun jf =>
      createConfig oo ie.2 jf.2 (ie.1 == 0 && jf.1 == 0) fsR).flatten

/-- The shebang actually matched by `/^#![^\n]*/`: present only when the
source starts with `#!`, and extends to the first newline. -/
def shebangOf (code : String) : Option String :=
  if code.data.take 2 = ['#', '!'] then
    some (String.mk (code.data.takeWhile (· ≠ '\n')))
  else none

/-- Result of the shebang transform plugin: the rewritten code plus the
(key, shebang) pair recorded into the shebang table, if any. -/
structure TransformOut where
  code : String
  recorded : Option (String × String)
deriving DecidableEq

/-- The transform plugin
`code.replace(/^#![^\n]*/, bang => { shebang[options.name] = bang; })`:
the replacer records the shebang but returns `undefined`, and JavaScript
`String.replace` stringifies that to the text `undefined`, which takes
the shebang's place in the emitted code. -/
def shebangTransform (nm code : String) : TransformOut :=
  match shebangOf code with
  | none => { code := code, recorded := none }
  | some bang =>
    { code := "undefined" ++ String.mk (code.data.drop bang.data.length)
      recorded := some (nm, bang) }

/-- The process-wide shebang table, keyed by build name. -/
abbrev ShebangTable := String → Option String

/-- The shebang table after the transform plugin ran on one source. -/
def tableAfterTransform (tbl : ShebangTable) (nm code : String) : ShebangTable :=
  match (shebangTransform nm code).recorded with
  | none => tbl
  | some kv => fun k => if k = kv.1 then some kv.2 else tbl k

/-- The lazy `banner` getter of `outputOptions`:
`get banner() { return shebang[options.name]; }`. -/
def bannerOf (tbl : ShebangTable) (c : Config) : Option String :=
  tbl c.outName

/-- The incremental-cache argument a batch step receives:
`inputOptions.cache` left as `false` (modern), the initial `undefined`,
or the bundle produced by step `i`. -/
inductive CacheArg where
  | disabled
  | empty
  | fromStep (i : Nat)
deriving DecidableEq

/-- The sequential batch loop of `microbundle`: `series` runs the steps
one after another; each iteration assigns the running `cache` variable
into `inputOptions.cache` unless that is `false`, then replaces `cache`
with the bundle it builds.  The result pairs each config, in plan order,
with the cache argument it received. -/
def runBatch : List Config → Option Nat → Nat → List (Config × CacheArg)
  | [], _, _ => []
  | c :: rest, prev, i =>
    let arg :=
      if c.cacheDisabled then CacheArg.disabled
      else
        match prev with
        | none => CacheArg.empty
        | some j => CacheArg.fromStep j
    (c, arg) :: runBatch rest (some i) (i + 1)

/-- A batch run over a whole plan, starting with an undefined cache. -/
def batchRun (plan : List Config) : List (Config × CacheArg) :=
  runBatch plan none 0

/-- The cache argument of a step whose own cache is enabled: the bundle
of the previously completed step, or nothing for the first step. -/
def initArg : Option Nat → CacheArg
  | none => CacheArg.empty
  | some j => CacheArg.fromStep j

/-- A rollup watcher event as observed by `doWatch`'s handler. -/
structure WEvent where
  code : String
  errMsg : String
deriving DecidableEq

/-- Everything the per-step watch handler could do, including the
terminating actions it never takes. -/
inductive WatchAction where
  | logErr (msg : String)
  | printSize
  | callOnBuild
  | closeWatcher
  | exitProcess
deriving DecidableEq

/-- The per-step event handler installed by `doWatch`: an `ERROR` event
is logged; an `END` event prints the size report and invokes the
optional `onBuild` callback.  No branch closes a watcher or exits. -/
def watchHandler (hasOnBuild : Bool) (e : WEvent) : List WatchAction :=
  (if e.code = "ERROR" then [WatchAction.logErr e.errMsg] else []) ++
  (if e.code = "END" then
    [WatchAction.printSize] ++ (if hasOnBuild then [WatchAction.callOnBuild] else [])
  else [])

/-- A filesystem with no readable/parsable mangle-cache file. -/
def fsMissing : String → Option NameCache := fun _ => none

/-- Example: one entry, `es,cjs` formats, default manifest. -/
def exO1 : Options :=
  { cwd := "/w", name := "demo", entries := ["/w/src/index.js"],
    output := "/w/dist/demo.js", formatStr := "es,cjs" }

/-- Example: two entries whose filenames both match the index pattern. -/
def exO2 : Options :=
  { cwd := "/w", name := "demo",
    entries := ["/w/src/a/index.js", "/w/src/b/index.js"],
    output := "/w/dist/demo.js", formatStr := "cjs" }

/-- Example: a two-entry plan (entry paths are part of the external set). -/
def exO3 : Options :=
  { cwd := "/w", name := "demo", entries := ["/w/a.js", "/w/b.js"],
    output := "/w/dist/demo.js", formatStr := "cjs", multipleEntries := true }

/-- Example: the `'none'` external sentinel with a declared dependency. -/
def exO4 : Options :=
  { cwd := "/w", name := "demo", entries := ["/w/src/index.js"],
    output := "/w/dist/demo.js", formatStr := "cjs",
    xternalOpt := some "none",
    pkg := { name := "demo", dependencies := ["react"] } }

/-- Example: dependencies `{react}` and no external override. -/
def exO5 : Options :=
  { cwd := "/w", name := "demo", entries := ["/w/src/index.js"],
    output := "/w/dist/demo.js", formatStr := "cjs",
    pkg := { name := "demo", dependencies := ["react"] } }

/-- Example: a declared dependency whose name contains a dot, which the
unescaped regex treats as a wildcard. -/
def exO5b : Options :=
  { cwd := "/w", name := "demo", entries := ["/w/src/index.js"],
    output := "/w/dist/demo.js", formatStr := "cjs",
    pkg := { name := "demo", dependencies := ["a.b"] } }

/-- Example: a string-valued `mangle` manifest field naming a cache file. -/
def exO7 : Options :=
  { cwd := "/w", name := "demo", entries := ["/w/src/index.js"],
    output := "/w/dist/demo.js", formatStr := "cjs",
    pkg := { name := "demo", minifyRaw := .str "mangle.json" } }

/-- Example: one entry with `modern,cjs` formats. -/
def exO8 : Options :=
  { cwd := "/w", name := "demo", entries := ["/w/src/index.js"],
    output := "/w/dist/demo.js", formatStr := "modern,cjs" }

/-- The second step (index 1) of the `exO8` batch: the modern-format config. -/
def exC8cfg : Config :=
  createConfig exO8 "/w/src/index.js" "modern" false fsMissing

/-- Example: an external override naming the async-to-promises package. -/
def exO10 : Options :=
  { cwd := "/w", name := "demo", entries := ["/w/src/index.js"],
    output := "/w/dist/demo.js", formatStr := "cjs",
    xternalOpt := some "babel-plugin-transform-async-to-promises" }

/-- An entry source starting with a shebang line. -/
def exShebangSrc : String := "#!/usr/bin/env node\nmain()"

/-! ## Lemmas about the format sort -/

theorem fmtCmp_cjs_left (y : String) : fmtCmp "cjs" y = -1 := by
  simp [fmtCmp]

theorem fmtCmp_neg_iff (x y : String) : fmtCmp x y < 0 ↔ x = "cjs" := by
  unfold fmtCmp
  by_cases h : x = "cjs"
  · simp [h]
  · rw [if_neg (by simpa using h)]
    constructor
    · intro hlt
      exact absurd hlt (by split <;> decide)
    · intro hx
      exact absurd hx h

theorem insertCmp_cjs (l : List String) : insertCmp "cjs" l = "cjs" :: l := by
  cases l with
  | nil => rfl
  | cons y ys =>
    rw [insertCmp, if_pos]
    rw [fmtCmp_neg_iff]

theorem insertCmp_keep_cjs (x : String) (h : x ≠ "cjs") (l : List String) :
    insertCmp x ("cjs" :: l) = "cjs" :: insertCmp x l := by
  rw [insertCmp, if_neg]
  rw [fmtCmp_neg_iff]
  exact h

theorem insertCmp_length (x : String) (l : List String) :
    (insertCmp x l).length = l.length + 1 := by
  induction l with
  | nil => rfl
  | cons y ys ih =>
    rw [insertCmp]
    split
    · simp
    · simp [ih]

theorem insertCmp_mem_cjs (x : String) (l : List String)
    (h : "cjs" ∈ l ∨ x = "cjs") : "cjs" ∈ insertCmp x l := by
  induction l with
  | nil =>
    rcases h with h | h
    · cases h
    · simp [insertCmp, h]
  | cons y ys ih =>
    rw [insertCmp]
    split
    · rcases h with h | h
      · exact List.mem_cons_of_mem _ h
      · simp [h]
    · rcases h with h | h
      · rcases List.mem_cons.mp h with h1 | h2
        · simp [← h1]
        · exact List.mem_cons_of_mem _ (ih (Or.inl h2))
      · exact List.mem_cons_of_mem _ (ih (Or.inr h))

theorem insertCmp_head_cjs (x : String) (l : List String)
    (h : l.head? = some "cjs" ∨ x = "cjs") :
    (insertCmp x l).head? = some "cjs" := by
  by_cases hx : x = "cjs"
  · rw [hx, insertCmp_cjs]; rfl
  · rcases h with h | h
    · cases l with
      | nil => cases h
      | cons y ys =>
        have hy : y = "cjs" := by simpa using h
        rw [hy, insertCmp_keep_cjs x hx]
        rfl
    · exact absurd h hx

theorem foldl_insert_length (l acc : List String) :
    (l.foldl (fun a x => insertCmp x a) acc).length = acc.length + l.length := by
  induction l generalizing acc with
  | nil => rfl
  | cons x xs ih =>
    rw [List.foldl_cons, ih, insertCmp_length, List.length_cons]
    omega

theorem jsSort_length (l : List String) : (jsSort l).length = l.length := by
  unfold jsSort
  rw [foldl_insert_length, List.length_nil]
  omega

theorem foldl_insert_head_cjs (l acc : List String)
    (h : "cjs" ∈ l ∨ acc.head? = some "cjs") :
    (l.foldl (fun a x => insertCmp x a) acc).head? = some "cjs" := by
  induction l generalizing acc with
  | nil =>
    rcases h with h | h
    · cases h
    · exact h
  | cons x xs ih =>
    rw [List.foldl_cons]
    by_cases hx : x = "cjs"
    · exact ih _ (Or.inr (insertCmp_head_cjs x acc (Or.inr hx)))
    · rcases h with h | h
      · rcases List.mem_cons.mp h with h1 | h2
        · exact absurd h1.symm hx
        · exact ih _ (Or.inl h2)
      · exact ih _ (Or.inr (insertCmp_head_cjs x acc (Or.inl h)))

theorem jsSort_head_cjs (l : List String) (h : "cjs" ∈ l) :
    (jsSort l).head? = some "cjs" :=
  foldl_insert_head_cjs l [] (Or.inl h)

theorem splitComma_ne_nil (l : List Char) : splitComma l ≠ [] := by
  cases l with
  | nil => simp [splitComma]
  | cons c cs =>
    rw [splitComma]
    rcases hr : splitComma cs with _ | ⟨s, rest⟩ <;> cases hb : c == ',' <;> simp

theorem planOptions_entries (o : Options) : (planOptions o).entries = o.entries := rfl

theorem planOptions_formatStr (o : Options) :
    (planOptions o).formatStr = o.formatStr := rfl

theorem sum_map_const {α : Type} (l : List α) (m : Nat) :
    (l.map (fun _ => m)).sum = l.length * m := by
  induction l with
  | nil => simp
  | cons a as ih =>
    simp [ih, Nat.succ_mul]
    omega

/-- C1: for every BuildOptions with N resolved entries and M requested
formats, the synthesized plan has exactly N×M steps; and if `cjs` is
among the requested formats, the first step of the plan is the
(first entry, cjs) pair, which is also the `writeMeta` step. -/
theorem c1_plan_shape (o : Options) (fsR : String → Option NameCache) :
    (buildPlan o fsR).length
        = o.entries.length * (splitComma o.formatStr.data).length
    ∧ ("cjs" ∈ splitComma o.formatStr.data → o.entries ≠ [] →
        ∃ c, (buildPlan o fsR).head? = some c ∧ c.format = "cjs" ∧
          o.entries.head? = some c.entry ∧ c.writeMeta = true) := by
  constructor
  · unfold buildPlan
    simp only [List.length_flatten, List.map_map, Function.comp_def, List.length_map,
      List.enum_length]
    rw [sum_map_const, List.enum_length]
    unfold sortedFormats
    rw [jsSort_length]
    rfl
  · intro hcjs hne
    obtain ⟨e, es, he⟩ := List.exists_cons_of_ne_nil hne
    have hsf : (sortedFormats (planOptions o)).head? = some "cjs" := by
      unfold sortedFormats
      exact jsSort_head_cjs _ hcjs
    obtain ⟨f, fs, hf⟩ : ∃ f fs, sortedFormats (planOptions o) = f :: fs := by
      cases hsf' : sortedFormats (planOptions o) with
      | nil => rw [hsf'] at hsf; cases hsf
      | cons f fs => exact ⟨f, fs, rfl⟩
    have hfcjs : f = "cjs" := by
      rw [hf] at hsf
      simpa using hsf
    refine ⟨createConfig (planOptions o) e f true fsR, ?_, ?_, ?_, ?_⟩
    · unfold buildPlan
      simp only [planOptions_entries, he, hf, List.enum_cons, List.map_cons,
        List.flatten_cons, List.head?_append, List.head?_cons]
      simp
    · exact hfcjs
    · rw [he]
      rfl
    · rfl

/-- C1 witness: the one-entry `es,cjs` example has a 1×2-step plan whose
first step is the cjs step for the first entry. -/
theorem c1_plan_shape_witness :
    (buildPlan exO1 fsMissing).length
        = exO1.entries.length * (splitComma exO1.formatStr.data).length
    ∧ ∃ c, (buildPlan exO1 fsMissing).head? = some c ∧ c.format = "cjs" ∧
        exO1.entries.head? = some c.entry ∧ c.writeMeta = true :=
  ⟨(c1_plan_shape exO1 fsMissing).1,
    (c1_plan_shape exO1 fsMissing).2 (by decide) (by decide)⟩

/-! ## The external predicate -/

theorem wildPrefixMatch_no_dot (p l r : List Char) (hd : '.' ∉ p) :
    wildPrefixMatch p l = some r ↔ l = p ++ r := by
  induction p generalizing l with
  | nil =>
    rw [wildPrefixMatch, List.nil_append]
    constructor
    · intro h
      exact Option.some.inj h
    · intro h
      rw [h]
  | cons q ps ih =>
    cases l with
    | nil =>
      rw [wildPrefixMatch]
      simp
    | cons c cs =>
      rw [wildPrefixMatch]
      have hq : q ≠ '.' := fun h => hd (h ▸ List.mem_cons_self q ps)
      have hch : chMatch q c = (q == c) := by
        unfold chMatch
        rw [beq_eq_false_iff_ne.mpr hq, Bool.false_or]
      rw [hch]
      by_cases hqc : q = c
      · rw [if_pos (by rw [hqc]; exact beq_self_eq_true c),
          ih cs (fun h => hd (List.mem_cons_of_mem q h))]
        subst hqc
        simp
      · rw [if_neg (by simpa using hqc)]
        simp [hqc]
        intro h
        exact absurd h.symm hqc

theorem altMatch_iff_no_dot (e id : String) (hd : '.' ∉ e.data) :
    altMatch e id = true ↔ id = e ∨ e.data ++ ['/'] <+: id.data := by
  unfold altMatch
  constructor
  · intro h
    cases hw : wildPrefixMatch e.data id.data with
    | none => rw [hw] at h; cases h
    | some rest =>
      rw [hw] at h
      have ht : id.data = e.data ++ rest := (wildPrefixMatch_no_dot _ _ _ hd).mp hw
      cases rest with
      | nil =>
        left
        apply String.ext
        rw [ht, List.append_nil]
      | cons c cs =>
        have hc : c = '/' := by simpa using h
        right
        refine ⟨cs, ?_⟩
        rw [List.append_assoc, List.singleton_append, ← hc]
        exact ht.symm
  · rintro (rfl | ⟨t, ht⟩)
    · rw [(wildPrefixMatch_no_dot id.data id.data [] hd).mpr (by rw [List.append_nil])]
      simp
    · have ht' : id.data = e.data ++ '/' :: t := by
        rw [← ht, List.append_assoc, List.singleton_append]
      rw [(wildPrefixMatch_no_dot e.data id.data ('/' :: t) hd).mpr ht']
      simp

/-- C5 counterexample: the external entries are injected into the regex
unescaped, so the declared dependency `a.b` (a member of the computed
external set) makes the predicate accept the specifier `axb` — `.` acts
as a wildcard — although `axb` neither equals nor path-extends any
external entry. -/
theorem c5_counterexample :
    "a.b" ∈ computeXternal exO5b "/w/src/index.js"
    ∧ xternalTest (computeXternal exO5b "/w/src/index.js") "axb" = true
    ∧ ∀ e ∈ computeXternal exO5b "/w/src/index.js",
        ¬(("axb" : String) = e ∨ e.data ++ ['/'] <+: ("axb" : String).data) := by
  decide

/-- C5 amended: for external entries free of regex metacharacters (in
particular containing no `.`), the predicate accepts a specifier exactly
when it equals the entry or extends it past a `/` separator; an entry
containing `.` is instead matched with `.` as a wildcard, since entries
are injected into the regex unescaped.  The claim's scenario stands:
with dependencies `{react}` and no override, `react` and
`react/jsx-runtime` are external, while `lodash` and `react-dom` are
bundled. -/
theorem c5_amended :
    (∀ (xs : List String) (id : String), (∀ e ∈ xs, regexSafe e = true) →
        (xternalTest xs id = true ↔
          ∃ e ∈ xs, id = e ∨ e.data ++ ['/'] <+: id.data))
    ∧ xternalTest (computeXternal exO5 "/w/src/index.js") "react" = true
    ∧ xternalTest (computeXternal exO5 "/w/src/index.js") "react/jsx-runtime" = true
    ∧ xternalTest (computeXternal exO5 "/w/src/index.js") "lodash" = false
    ∧ xternalTest (computeXternal exO5 "/w/src/index.js") "react-dom" = false := by
  refine ⟨?_, by decide, by decide, by decide, by decide⟩
  intro xs id hsafe
  have hdot : ∀ e ∈ xs, '.' ∉ e.data := by
    intro e he hmem
    have hs := hsafe e he
    unfold regexSafe at hs
    rw [List.all_eq_true] at hs
    have := hs '.' hmem
    simp at this
  unfold xternalTest
  split
  · next h =>
    have hx : xs = [] := by simpa using h
    subst hx
    simp
  · rw [List.any_eq_true]
    constructor
    · rintro ⟨e, he, hm⟩
      exact ⟨e, he, (altMatch_iff_no_dot e id (hdot e he)).mp hm⟩
    · rintro ⟨e, he, hm⟩
      exact ⟨e, he, (altMatch_iff_no_dot e id (hdot e he)).mpr hm⟩

/-- C5 amended witness: the equivalence instantiated at the react
example's external set and the specifier `react/jsx-runtime`. -/
theorem c5_amended_witness :
    xternalTest (computeXternal exO5 "/w/src/index.js") "react/jsx-runtime" = true
      ↔ ∃ e ∈ computeXternal exO5 "/w/src/index.js",
          ("react/jsx-runtime" : String) = e
            ∨ e.data ++ ['/'] <+: ("react/jsx-runtime" : String).data :=
  c5_amended.1 (computeXternal exO5 "/w/src/index.js") "react/jsx-runtime" (by decide)

/-- C4: the bundle module's `getExternals` maps the `'none'` sentinel to
the empty external set, but `createConfig` leaves the built-ins (and
sibling entries) in its external array under the same sentinel, so a
specifier such as `fs` is still classified external there, contradicting
the code's own `bundle everything (external=[])` comment. -/
theorem c4_none_sentinel :
    getXternals (some "none") ["react"] ["vue"] = []
    ∧ computeXternal exO4 "/w/src/index.js" = ["dns", "fs", "path", "url"]
    ∧ xternalTest (computeXternal exO4 "/w/src/index.js") "fs" = true
    ∧ inputXternalPred exO4 "/w/src/index.js" "fs" = true := by decide

/-- C2 counterexample: two entries that both match the index-file pattern
map to the same output path for the same format, yet the plan is
synthesized (no ConfigurationError exists anywhere in the code). -/
theorem c2_counterexample :
    (buildPlan exO2 fsMissing).length = 2
    ∧ (buildPlan exO2 fsMissing).map Config.entry
        = ["/w/src/a/index.js", "/w/src/b/index.js"]
    ∧ (buildPlan exO2 fsMissing).map Config.outFile
        = ["/w/dist/demo.js", "/w/dist/demo.js"] := by decide

/-- C3 counterexample: in a two-entry plan the step for the first entry
classifies the second entry's path as external while the step for the
second entry classifies the same specifier as bundled, so classification
is not identical across the steps of one plan. -/
theorem c3_counterexample :
    (buildPlan exO3 fsMissing).map Config.entry = ["/w/a.js", "/w/b.js"]
    ∧ (buildPlan exO3 fsMissing).map (fun c => xternalTest c.xternal "/w/b.js")
        = [true, false] := by decide

theorem xternalTest_entry_indep (o : Options) (e1 e2 id : String)
    (h : ∀ e ∈ o.entries, altMatch e id = false) :
    xternalTest (computeXternal o e1) id = xternalTest (computeXternal o e2) id := by
  have hf : ∀ e' : String,
      (o.entries.any fun a => !decide (a = e') && altMatch a id) = false := by
    intro e'
    rw [List.any_eq_false]
    intro a ha
    simp [h a ha]
  unfold computeXternal xternalTest
  by_cases hn : o.xternalOpt == some "none" <;>
    by_cases ht : isTruthyStr o.xternalOpt <;>
      simp [hn, ht, List.any_append, hf e1, hf e2]

/-- C3 amended: the per-step external classification is independent of
the step's format, and depends on the step's entry only through the
exclusion of that entry itself from the external set: for entry paths
within the model's regex domain (no metacharacter besides the `.`
wildcard), any specifier that matches no entry path of the plan under
the regex semantics is classified identically by every step. -/
theorem c3_amended (o : Options) (e1 e2 id : String)
    (_htame : ∀ e ∈ o.entries, regexTame e = true)
    (h : ∀ e ∈ o.entries, altMatch e id = false) :
    inputXternalPred o e1 id = inputXternalPred o e2 id := by
  unfold inputXternalPred
  rw [xternalTest_entry_indep o e1 e2 id h]

/-- C3 amended witness: the bare specifier `react` matches neither entry
path (under the wildcard semantics) and is classified the same by both
steps of the two-entry example plan. -/
theorem c3_amended_witness :
    inputXternalPred exO3 "/w/a.js" "react" = inputXternalPred exO3 "/w/b.js" "react" :=
  c3_amended exO3 "/w/a.js" "/w/b.js" "react" (by decide) (by decide)

/-! ## Output-path lemmas -/

theorem strApp_cancel (n : String) {s t : String} (hEq : n ++ s = n ++ t) : s = t := by
  apply String.ext
  have hd := congrArg String.data hEq
  rw [String.data_append, String.data_append] at hd
  exact List.append_cancel_left hd

theorem strApp_ne (n : String) {s t : String} (h : s ≠ t) : n ++ s ≠ n ++ t :=
  fun hEq => h (strApp_cancel n hEq)

theorem isAbs_app_congr (n : String) {s t : String}
    (hs : s.data.head? ≠ some '/') (ht : t.data.head? ≠ some '/') :
    isAbs (n ++ s) = isAbs (n ++ t) := by
  unfold isAbs
  rw [String.data_append, String.data_append, List.head?_append, List.head?_append]
  cases hn : n.data.head? with
  | none =>
    have h1 : (s.data.head? == some '/') = false := beq_eq_false_iff_ne.mpr hs
    have h2 : (t.data.head? == some '/') = false := beq_eq_false_iff_ne.mpr ht
    simp [Option.none_or, h1, h2]
  | some c => simp

theorem resolveP_inj (a : String) {x y : String} (hAbs : isAbs x = isAbs y)
    (hne : x ≠ y) : resolveP a x ≠ resolveP a y := by
  unfold resolveP
  by_cases hx : isAbs x = true
  · rw [if_pos hx, if_pos (hAbs.symm.trans hx)]
    exact hne
  · rw [if_neg hx, if_neg (fun hy => hx (hAbs.trans hy))]
    exact strApp_ne (a ++ "/") hne

theorem isAbs_resolveP_dot (x : String) : isAbs (resolveP "." x) = isAbs x := by
  unfold resolveP
  by_cases hx : isAbs x = true
  · rw [if_pos hx]
  · rw [if_neg hx]
    have hdot : isAbs ("." ++ "/" ++ x) = false := rfl
    rw [hdot]
    simp only [Bool.not_eq_true] at hx
    rw [hx]

theorem outSfx_ne (cwd n : String) {s t : String}
    (hs : s.data.head? = some '.') (ht : t.data.head? = some '.') (hne : s ≠ t) :
    resolveP cwd (resolveP "." (n ++ s)) ≠ resolveP cwd (resolveP "." (n ++ t)) := by
  have hAbs : isAbs (n ++ s) = isAbs (n ++ t) :=
    isAbs_app_congr n (by rw [hs]; decide) (by rw [ht]; decide)
  have hinner : resolveP "." (n ++ s) ≠ resolveP "." (n ++ t) :=
    resolveP_inj "." hAbs (strApp_ne n hne)
  have hAbs2 : isAbs (resolveP "." (n ++ s)) = isAbs (resolveP "." (n ++ t)) := by
    rw [isAbs_resolveP_dot, isAbs_resolveP_dot]
    exact hAbs
  exact resolveP_inj cwd hAbs2 hinner

theorem outFileOf_default (o : Options) (entry f : String)
    (hm : o.pkg.moduleField = none) (hj : o.pkg.jsnextMain = none)
    (hs : o.pkg.esmodulesField = none) (he : o.pkg.esmodule = none)
    (hc : o.pkg.cjsMainField = none) (hu : o.pkg.umdMainField = none) :
    outFileOf o entry f
      = resolveP o.cwd (resolveP "." (mainNoExtensionOf o entry ++ defaultSfx f)) := by
  unfold outFileOf defaultSfx
  by_cases h1 : f = "modern"
  · subst h1
    simp [modernMainOf, jsOr, hs, he, replaceName]
    rw [show dirnameP "x.modern.js" = "." from by decide,
      show dropLeadingNonDot (basenameP "x.modern.js") = ".modern.js" from by decide]
  · by_cases h2 : f = "es"
    · subst h2
      simp [moduleMainOf, jsOr, hm, hj, replaceName]
      rw [show dirnameP "x.esm.js" = "." from by decide,
        show dropLeadingNonDot (basenameP "x.esm.js") = ".esm.js" from by decide]
    · by_cases h3 : f = "umd"
      · subst h3
        simp [umdMainOf, jsOr, hu, replaceName]
        rw [show dirnameP "x.umd.js" = "." from by decide,
          show dropLeadingNonDot (basenameP "x.umd.js") = ".umd.js" from by decide]
      · simp [h1, h2, h3, cjsMainOf, jsOr, hc, replaceName]
        rw [show dirnameP "x.js" = "." from by decide,
          show dropLeadingNonDot (basenameP "x.js") = ".js" from by decide]

theorem defaultSfx_head (f : String) : (defaultSfx f).data.head? = some '.' := by
  unfold defaultSfx
  by_cases h1 : f = "modern"
  · rw [if_pos h1]; decide
  · rw [if_neg h1]
    by_cases h2 : f = "es"
    · rw [if_pos h2]; decide
    · rw [if_neg h2]
      by_cases h3 : f = "umd"
      · rw [if_pos h3]; decide
      · rw [if_neg h3]; decide

theorem defaultSfx_inj {f1 f2 : String}
    (h1 : f1 = "modern" ∨ f1 = "es" ∨ f1 = "umd" ∨ f1 = "cjs")
    (h2 : f2 = "modern" ∨ f2 = "es" ∨ f2 = "umd" ∨ f2 = "cjs")
    (hne : f1 ≠ f2) : defaultSfx f1 ≠ defaultSfx f2 := by
  rcases h1 with rfl | rfl | rfl | rfl <;> rcases h2 with rfl | rfl | rfl | rfl <;>
    first
      | exact absurd rfl hne
      | decide

/-- C2 amended: the plan is synthesized without any collision check (no
ConfigurationError exists), and colliding output paths are possible for
multiple index-named entries; what does hold is that for one entry the
four formats modern/es/umd/cjs have pairwise distinct output paths when
the manifest declares no per-format main override. -/
theorem c2_amended (o : Options) (entry f1 f2 : String)
    (hm : o.pkg.moduleField = none) (hj : o.pkg.jsnextMain = none)
    (hs : o.pkg.esmodulesField = none) (he : o.pkg.esmodule = none)
    (hc : o.pkg.cjsMainField = none) (hu : o.pkg.umdMainField = none)
    (h1 : f1 = "modern" ∨ f1 = "es" ∨ f1 = "umd" ∨ f1 = "cjs")
    (h2 : f2 = "modern" ∨ f2 = "es" ∨ f2 = "umd" ∨ f2 = "cjs")
    (hne : f1 ≠ f2) :
    outFileOf o entry f1 ≠ outFileOf o entry f2 := by
  rw [outFileOf_default o entry f1 hm hj hs he hc hu,
      outFileOf_default o entry f2 hm hj hs he hc hu]
  exact outSfx_ne o.cwd (mainNoExtensionOf o entry)
    (defaultSfx_head f1) (defaultSfx_head f2) (defaultSfx_inj h1 h2 hne)

/-- C2 amended witness: the cjs and es outputs of the one-entry example
differ. -/
theorem c2_amended_witness :
    outFileOf exO1 "/w/src/index.js" "cjs" ≠ outFileOf exO1 "/w/src/index.js" "es" :=
  c2_amended exO1 "/w/src/index.js" "cjs" "es" rfl rfl rfl rfl rfl rfl
    (by decide) (by decide) (by decide)

/-! ## Shebang handling -/

/-- C6: the transform plugin records the shebang in the table under the
build name, and the banner getter returns it verbatim for every config
sharing that name; but the shebang is not stripped from the code — the
replacer callback returns `undefined`, which `String.replace` turns into
the literal text `undefined` in the shebang's place. -/
theorem c6_shebang_not_stripped :
    (shebangTransform "demo" exShebangSrc).recorded
        = some ("demo", "#!/usr/bin/env node")
    ∧ (shebangTransform "demo" exShebangSrc).code = "undefined\nmain()"
    ∧ (shebangTransform "demo" exShebangSrc).code ≠ "\nmain()"
    ∧ bannerOf (tableAfterTransform (fun _ => none) "demo" exShebangSrc)
        (createConfig exO1 "/w/src/index.js" "cjs" true fsMissing)
        = some "#!/usr/bin/env node" := by
  decide

/-! ## Mangle cache -/

/-- C7 counterexample: with a string-valued `mangle` manifest field and a
missing (or unparsable) cache file at its path, the step's name cache is
null rather than the empty cache, the terser write-back plugin is
dropped, and even the primary step writes no fresh cache file — contrary
to the claim that a fresh cache file is written on completion. -/
theorem c7_counterexample :
    nameCacheAfterLoad exO7 fsMissing = none
    ∧ nameCacheAfterLoad exO7 fsMissing ≠ some ([] : NameCache)
    ∧ (createConfig exO7 "/w/src/index.js" "cjs" true fsMissing).cacheWritePluginPresent
        = false
    ∧ (createConfig exO7 "/w/src/index.js" "cjs" true fsMissing).writesCache = false := by
  decide

/-- C7 amended: a missing or unparsable mangle-cache file never aborts
config synthesis (the loader swallows the error and is total here); the
step proceeds with the name cache disabled (null) rather than empty, so
the write-back plugin is omitted and no fresh cache file is written; and
a non-primary step never writes the cache file under any filesystem
state. -/
theorem c7_amended (o : Options) (entry fm : String) (wm : Bool)
    (fsR : String → Option NameCache)
    (hmiss : fsR (nameCachePathOf o) = none) :
    nameCacheAfterLoad o fsR = none
    ∧ (createConfig o entry fm wm fsR).writesCache = false
    ∧ ∀ fsR' : String → Option NameCache,
        (createConfig o entry fm false fsR').writesCache = false := by
  have h0 : nameCacheAfterLoad o fsR = none := by
    unfold nameCacheAfterLoad
    rw [hmiss]
  refine ⟨h0, ?_, ?_⟩
  · simp [createConfig, Config.writesCache, h0]
  · intro fsR'
    simp [createConfig, Config.writesCache]

/-- C7 amended witness: the amended behavior at the example options with
a missing cache file. -/
theorem c7_amended_witness :
    nameCacheAfterLoad exO7 fsMissing = none
    ∧ (createConfig exO7 "/w/src/index.js" "cjs" true fsMissing).writesCache = false :=
  ⟨(c7_amended exO7 "/w/src/index.js" "cjs" true fsMissing rfl).1,
    (c7_amended exO7 "/w/src/index.js" "cjs" true fsMissing rfl).2.1⟩

/-! ## Batch execution -/

theorem runBatch_map_fst (l : List Config) (prev : Option Nat) (i : Nat) :
    (runBatch l prev i).map Prod.fst = l := by
  induction l generalizing prev i with
  | nil => rfl
  | cons c rest ih => simp [runBatch, ih]

theorem runBatch_get? (l : List Config) (prev : Option Nat) (k i : Nat)
    (c : Config) (arg : CacheArg)
    (hget : (runBatch l prev k).get? i = some (c, arg)) :
    (c.cacheDisabled = true → arg = CacheArg.disabled)
    ∧ (c.cacheDisabled = false → i = 0 → arg = initArg prev)
    ∧ (c.cacheDisabled = false → 0 < i → arg = CacheArg.fromStep (k + i - 1)) := by
  induction l generalizing prev k i with
  | nil => cases hget
  | cons c0 rest ih =>
    cases i with
    | zero =>
      simp only [runBatch, List.get?] at hget
      injection hget with hpair
      injection hpair with hc ha
      subst hc
      refine ⟨fun h => ?_, fun h _ => ?_, fun _ h0 => absurd h0 (by omega)⟩
      · rw [← ha, if_pos h]
      · rw [← ha, if_neg (by simp [h])]
        cases prev <;> rfl
    | succ n =>
      simp only [runBatch, List.get?] at hget
      have hrec := ih (some k) (k + 1) n hget
      refine ⟨hrec.1, fun _ h0 => absurd h0 (by omega), fun h _ => ?_⟩
      cases n with
      | zero =>
        have h1 := hrec.2.1 h rfl
        rw [h1]
        rfl
      | succ m =>
        have h2 := hrec.2.2 h (Nat.succ_pos m)
        rw [h2]
        congr 1
        omega

theorem buildPlan_cacheDisabled (o : Options) (fsR : String → Option NameCache)
    (c : Config) (hc : c ∈ buildPlan o fsR) :
    c.cacheDisabled = (c.format == "modern") := by
  unfold buildPlan at hc
  rw [List.mem_flatten] at hc
  obtain ⟨l, hl, hcl⟩ := hc
  rw [List.mem_map] at hl
  obtain ⟨ie, _, rfl⟩ := hl
  rw [List.mem_map] at hcl
  obtain ⟨jf, _, rfl⟩ := hcl
  rfl

/-- C8: a batch run pairs the plan's steps, in plan order, with their
incremental-cache inputs: a modern-format step gets its cache disabled;
every other step after the first receives the bundle of the immediately
preceding step; the non-modern first step starts with no cache. -/
theorem c8_batch_cache (o : Options) (fsR : String → Option NameCache)
    (i : Nat) (c : Config) (arg : CacheArg)
    (hget : (batchRun (buildPlan o fsR)).get? i = some (c, arg)) :
    (batchRun (buildPlan o fsR)).map Prod.fst = buildPlan o fsR
    ∧ (c.format = "modern" → arg = CacheArg.disabled)
    ∧ (c.format ≠ "modern" → 0 < i → arg = CacheArg.fromStep (i - 1))
    ∧ (c.format ≠ "modern" → i = 0 → arg = CacheArg.empty) := by
  have hmem : c ∈ buildPlan o fsR := by
    have hp : (c, arg) ∈ batchRun (buildPlan o fsR) := List.get?_mem hget
    have h2 := List.mem_map_of_mem Prod.fst hp
    unfold batchRun at h2
    rw [runBatch_map_fst] at h2
    exact h2
  have hdis := buildPlan_cacheDisabled o fsR c hmem
  have hrb := runBatch_get? (buildPlan o fsR) none 0 i c arg hget
  refine ⟨runBatch_map_fst _ _ _, ?_, ?_, ?_⟩
  · intro hmod
    apply hrb.1
    rw [hdis, hmod]
    decide
  · intro hne hpos
    have hfalse : c.cacheDisabled = false := by
      rw [hdis]
      exact beq_eq_false_iff_ne.mpr hne
    have h2 := hrb.2.2 hfalse hpos
    rw [h2]
    congr 1
    omega
  · intro hne h0
    have hfalse : c.cacheDisabled = false := by
      rw [hdis]
      exact beq_eq_false_iff_ne.mpr hne
    exact hrb.2.1 hfalse h0

/-- C8 witness: in the `modern,cjs` example (cjs sorted first), step 1 is
the modern step and its cache argument is `disabled`. -/
theorem c8_batch_cache_witness :
    (batchRun (buildPlan exO8 fsMissing)).map Prod.fst = buildPlan exO8 fsMissing
    ∧ (exC8cfg.format = "modern" → CacheArg.disabled = CacheArg.disabled)
    ∧ (exC8cfg.format ≠ "modern" → 0 < 1 → CacheArg.disabled = CacheArg.fromStep (1 - 1))
    ∧ (exC8cfg.format ≠ "modern" → 1 = 0 → CacheArg.disabled = CacheArg.empty) :=
  c8_batch_cache exO8 fsMissing 1 exC8cfg CacheArg.disabled (by decide)

/-! ## Watch mode -/

/-- C9: the per-step watch handler reacts to an `ERROR` event with a
single log action, and no event ever makes it close a watcher or exit
the process. -/
theorem c9_watch_error_only_logs (hb : Bool) (e : WEvent) (msg : String) :
    watchHandler hb { code := "ERROR", errMsg := msg } = [WatchAction.logErr msg]
    ∧ WatchAction.closeWatcher ∉ watchHandler hb e
    ∧ WatchAction.exitProcess ∉ watchHandler hb e := by
  refine ⟨by simp [watchHandler], ?_, ?_⟩ <;>
  · by_cases h1 : e.code = "ERROR"
    · by_cases h2 : e.code = "END"
      · exact absurd (h1.symm.trans h2) (by decide)
      · simp [watchHandler, h1, h2]
    · by_cases h2 : e.code = "END"
      · cases hb <;> simp [watchHandler, h1, h2]
      · simp [watchHandler, h1, h2]

/-- C9 witness: a concrete `ERROR` event produces exactly one log action. -/
theorem c9_watch_witness :
    watchHandler true { code := "ERROR", errMsg := "boom" }
      = [WatchAction.logErr "boom"] :=
  (c9_watch_error_only_logs true { code := "END", errMsg := "x" } "boom").1

/-- C10: the pipeline's external callback always answers `false` for the
async-to-promises helper module — even when the computed external set
matches it, as in the `exO10` override — and always answers `true` for
`.` when the plan has more than one entry. -/
theorem c10_helper_bundled (o : Options) (entry : String) :
    inputXternalPred o entry "babel-plugin-transform-async-to-promises/helpers" = false
    ∧ (1 < o.entries.length → inputXternalPred (planOptions o) entry "." = true)
    ∧ xternalTest (computeXternal exO10 "/w/src/index.js")
        "babel-plugin-transform-async-to-promises/helpers" = true
    ∧ inputXternalPred exO10 "/w/src/index.js"
        "babel-plugin-transform-async-to-promises/helpers" = false := by
  refine ⟨?_, ?_, by decide, by decide⟩
  · rw [inputXternalPred, if_pos rfl]
  · intro h
    have hm : (planOptions o).multipleEntries = true := by
      simp [planOptions]
      exact h
    rw [inputXternalPred, if_neg (by decide), if_pos (by rw [hm]; decide)]

/-- C10 witness: `.` is classified external in the two-entry example. -/
theorem c10_helper_bundled_witness :
    inputXternalPred (planOptions exO3) "/w/a.js" "." = true :=
  (c10_helper_bundled exO3 "/w/a.js").2.1 (by decide)

end Microbundle
